import Mathlib

/-!
# Verification of the ProgressBar tracker/renderer (src/main.go)

A shallow embedding of the single-file Go program.  Conventions:

* Go `int64` / `int` values are modelled as `ℤ` (no claim in scope depends on
  wrap-around; where a range matters, the `int64` range appears as an explicit
  hypothesis).
* Go `float64` values are modelled as exact rationals `ℚ`; `fmt` float
  formatting (`%.1f` etc.) is modelled as correctly rounded decimal output with
  ties to even, and `int64(x)` conversion as truncation toward zero.
* Go `len(s)` is the UTF-8 byte length, modelled by `String.utf8ByteSize`;
  Go `fmt` padding widths count code points, modelled by `String.length`.
* The two `time.Now()` reads inside `ShowProgressBar` (lines 124 and 162) are
  passed in as explicit parameters `t1` and `t2` (milliseconds).
* Writing to stdout is modelled by returning the emitted string next to the
  updated state.
-/

namespace ProgressBarGo

/-- Go `Unit` enum (src/main.go lines 14-19): `UnitRaw` / `UnitBytes`. -/
inductive Unit where
  | UnitRaw : Unit
  | UnitBytes : Unit
deriving DecidableEq

/-- Decimal digit character: `digitChar d` is the character for digit `d`. -/
def digitChar (d : ℕ) : Char := Char.ofNat (48 + d)

/-- Little-endian decimal digits of `n`.  The first argument is fuel: any
fuel `≥ n` gives the true digit list (`decDigits_eq_digits`). -/
def decDigits : ℕ → ℕ → List ℕ
  | 0, _ => []
  | fuel + 1, n => if n = 0 then [] else n % 10 :: decDigits fuel (n / 10)

/-- Decimal representation of a natural number, as Go `fmt.Sprintf("%d", n)`
produces for `n ≥ 0`. -/
def natRepr (n : ℕ) : String :=
  if n = 0 then "0" else String.mk ((decDigits n n).reverse.map digitChar)

/-- Decimal representation of an integer, as Go `fmt.Sprintf("%d", i)`. -/
def intRepr (i : ℤ) : String :=
  if i < 0 then "-" ++ natRepr (-i).toNat else natRepr i.toNat

/-- Left-pad `s` with spaces to width `w` code points: Go `fmt` width
semantics for `%wd`, `%w.pf`, `%ws`. -/
def padLeft (w : ℕ) (s : String) : String :=
  String.mk (List.replicate (w - s.length) ' ') ++ s

/-- Left-pad `s` with zeros to width `w`: Go `%0wd` (only used at `w = 2`,
where it agrees with Go's sign handling). -/
def padZeroLeft (w : ℕ) (s : String) : String :=
  String.mk (List.replicate (w - s.length) '0') ++ s

/-- Computable floor of a rational (`ratFloor_eq` links it to `⌊·⌋`). -/
def ratFloor (q : ℚ) : ℤ := q.num / q.den

/-- Go `int64(x)` conversion of a float: truncation toward zero. -/
def goTrunc (q : ℚ) : ℤ := Int.tdiv q.num q.den

/-- Round to the nearest integer, ties to even: the rounding used by Go's
`fmt` when printing a float with a fixed number of decimals. -/
def rndHE (q : ℚ) : ℤ :=
  if q - ratFloor q = 1 / 2 then
    (if 2 ∣ ratFloor q then ratFloor q else ratFloor q + 1)
  else ratFloor (q + 1 / 2)

/-- The digits of Go `fmt.Sprintf("%.pf", q)`: sign, integer part, `.`,
`prec` fractional digits (of the value rounded to `prec` decimals). -/
def fmtFrac (prec : ℕ) (q : ℚ) : String :=
  (if q < 0 then "-" else "") ++
    natRepr ((rndHE (|q| * 10 ^ prec) / 10 ^ prec).toNat) ++ "." ++
    padZeroLeft prec (natRepr ((rndHE (|q| * 10 ^ prec) % 10 ^ prec).toNat))

/-- Go `fmt.Sprintf("%w.pf", q)`. -/
def fmtF (w prec : ℕ) (q : ℚ) : String := padLeft w (fmtFrac prec q)

/-- `formatTime` (src/main.go lines 219-226): milliseconds to `"HH:MM:SS"`.
Go `/` and `%` on `int64` truncate toward zero (`Int.tdiv` / `Int.tmod`). -/
def formatTime (ms : ℤ) : String :=
  let seconds := Int.tdiv ms 1000
  let hours := Int.tdiv seconds 3600
  let seconds1 := Int.tmod seconds 3600
  let minutes := Int.tdiv seconds1 60
  let seconds2 := Int.tmod seconds1 60
  padZeroLeft 2 (intRepr hours) ++ ":" ++ padZeroLeft 2 (intRepr minutes) ++
    ":" ++ padZeroLeft 2 (intRepr seconds2)

/-- The loop `for n := bytes/unit; n >= unit; n /= unit { div *= unit; exp++ }`
of `formatBytes` (src/main.go lines 234-238), returning the final
`(div, exp)`.  The first argument is fuel; `n` strictly decreases at every
step, so any fuel `≥ n` computes the loop's true result. -/
def bytesLoop : ℕ → ℕ → ℕ → ℕ → ℕ × ℕ
  | 0, _, d, e => (d, e)
  | fuel + 1, n, d, e =>
    if n < 1024 then (d, e) else bytesLoop fuel (n / 1024) (d * 1024) (e + 1)

/-- The suffix string `"KMGTPE"` indexed by `exp` in `formatBytes`. -/
def suffixes : List Char := ['K', 'M', 'G', 'T', 'P', 'E']

/-- `formatBytes` (src/main.go lines 229-240): `%3d B` below 1024, otherwise
`%6.1f %cB` with the magnitude suffix selected by the division loop. -/
def formatBytes (bytes : ℤ) : String :=
  if bytes < 1024 then padLeft 3 (intRepr bytes) ++ " B"
  else
    fmtF 6 1 ((bytes : ℚ) /
        ((bytesLoop bytes.toNat (bytes.toNat / 1024) 1024 0).1 : ℚ)) ++ " " ++
      String.mk [suffixes.getD (bytesLoop bytes.toNat (bytes.toNat / 1024) 1024 0).2 ' '] ++ "B"

/-- `Config` (src/main.go lines 21-35): the mutable tracker state. -/
structure Config where
  current : ℤ
  total : ℤ
  width : ℤ
  showProgress : Bool
  showPercent : Bool
  showSpeed : Bool
  showUsedTime : Bool
  showLastTime : Bool
  startTime : ℤ
  last : ℤ
  lastTime : ℤ
  unit : Unit
  totalStr : String
deriving DecidableEq

/-- `ProgressBar` constructor (src/main.go lines 47-74).  The terminal width
and the clock are external capabilities, so the initially cached width and
`startTime` are parameters.  (The SIGWINCH listener goroutine only ever
overwrites `width`; renders always read the cached value.) -/
def ProgressBar (total width startTime : ℤ) : Config :=
  { current := 0
    total := total
    width := width
    showProgress := true
    showPercent := false
    showSpeed := false
    showUsedTime := false
    showLastTime := false
    startTime := startTime
    last := 0
    lastTime := 0
    unit := Unit.UnitRaw
    totalStr := intRepr total }

/-- `ShowProgress` (src/main.go lines 76-79). -/
def ShowProgress (c : Config) (flag : Bool) : Config := { c with showProgress := flag }

/-- `ShowPercent` (src/main.go lines 81-84). -/
def ShowPercent (c : Config) (flag : Bool) : Config := { c with showPercent := flag }

/-- `ShowSpeed` (src/main.go lines 86-89). -/
def ShowSpeed (c : Config) (flag : Bool) : Config := { c with showSpeed := flag }

/-- `ShowUsedTime` (src/main.go lines 242-244). -/
def ShowUsedTime (c : Config) (flag : Bool) : Config := { c with showUsedTime := flag }

/-- `ShowLastTime` (src/main.go lines 246-248). -/
def ShowLastTime (c : Config) (flag : Bool) : Config := { c with showLastTime := flag }

/-- `SetUnit` (src/main.go lines 91-100): sets the unit and recomputes the
cached `totalStr`. -/
def SetUnit (c : Config) (u : Unit) : Config :=
  { c with
    unit := u
    totalStr := if u = Unit.UnitBytes then formatBytes c.total else intRepr c.total }

/-- The state mutation of `Update` (src/main.go lines 103-105): accept the new
value only when it is strictly larger than `current` and at most `total`. -/
def updateCurrent (c : Config) (v : ℤ) : Config :=
  if v > c.current ∧ v ≤ c.total then { c with current := v } else c

/-- The state mutation of `Increment` (src/main.go lines 110-112). -/
def incrementCurrent (c : Config) : Config :=
  if c.current < c.total then { c with current := c.current + 1 } else c

/-- The percent computation of `ShowProgressBar` (src/main.go lines 117-121,
repeated verbatim at lines 130-132): `current/total*100` as float, `0` when
`total ≤ 0`. -/
def percent (c : Config) : ℚ :=
  if c.total > 0 then (c.current : ℚ) / (c.total : ℚ) * 100 else 0

/-- `usedTime := currentTime - c.startTime` (src/main.go line 125), where
`t1` is the first `time.Now()` read (line 124). -/
def usedTimeOf (c : Config) (t1 : ℤ) : ℤ := t1 - c.startTime

/-- The estimated-remaining computation (src/main.go lines 126-129):
`int64(usedTime*(100/percent) - usedTime)` when `percent > 0`, else `0`. -/
def lastTimeOf (c : Config) (t1 : ℤ) : ℤ :=
  if percent c > 0 then
    goTrunc ((usedTimeOf c t1 : ℚ) * (100 / percent c) - (usedTimeOf c t1 : ℚ))
  else 0

/-- The per-render formatted `current` (src/main.go lines 134-142):
`formatBytes` under `UnitBytes`, otherwise `%Nd` where `N = len(c.totalStr)`
in bytes. -/
def currentStrOf (c : Config) : String :=
  if c.unit = Unit.UnitBytes then formatBytes c.current
  else padLeft c.totalStr.utf8ByteSize (intRepr c.current)

/-- The percent annotation (src/main.go lines 147-149): `" %.1f%%"`. -/
def percentPart (c : Config) : String :=
  if c.showPercent then " " ++ fmtF 0 1 (percent c) ++ "%" else ""

/-- The progress-fraction annotation (src/main.go lines 152-158). -/
def progressPart (c : Config) : String :=
  if c.showProgress then
    if c.showPercent then " (" ++ currentStrOf c ++ "/" ++ c.totalStr ++ ")"
    else " " ++ currentStrOf c ++ "/" ++ c.totalStr
  else ""

/-- The speed annotation (src/main.go lines 161-174), where `t2` is the
`now` read at line 162.  Appended only when a prior sample exists
(`lastTime > 0`) and the elapsed interval is positive; under `UnitBytes` the
rate is scaled by 1024 and truncated to `int64` before `formatBytes`. -/
def speedPart (c : Config) (t2 : ℤ) : String :=
  if c.showSpeed then
    if c.lastTime > 0 then
      if t2 - c.lastTime > 0 then
        let speed : ℚ := ((c.current - c.last : ℤ) : ℚ) / (((t2 - c.lastTime : ℤ) : ℚ) / 1000)
        if c.unit = Unit.UnitBytes then
          " (" ++ formatBytes (goTrunc (speed * 1024)) ++ "/s)"
        else " (" ++ fmtF 7 2 speed ++ " items/s)"
      else ""
    else ""
  else ""

/-- The time annotations (src/main.go lines 180-189). -/
def timePart (c : Config) (t1 : ℤ) : String :=
  if c.showUsedTime ∧ c.showLastTime ∧ percent c > 0 then
    " [" ++ formatTime (usedTimeOf c t1) ++ "/" ++ formatTime (lastTimeOf c t1) ++ "]"
  else
    (if c.showUsedTime then " [已用:" ++ formatTime (usedTimeOf c t1) ++ "]" else "") ++
      (if c.showLastTime ∧ percent c > 0 then " [剩余:" ++ formatTime (lastTimeOf c t1) ++ "]"
       else "")

/-- The `output` string accumulated at src/main.go lines 144-189: percent,
fraction, speed and time annotations, in that order. -/
def renderOutput (c : Config) (t1 t2 : ℤ) : String :=
  percentPart c ++ progressPart c ++ speedPart c t2 ++ timePart c t1

/-- `progressWidth := c.width - len(output) - 2` (src/main.go line 191);
`len` is the byte length. -/
def progressWidthOf (c : Config) (t1 t2 : ℤ) : ℤ :=
  c.width - ((renderOutput c t1 t2).utf8ByteSize : ℤ) - 2

/-- `progressLength := int(float64(progressWidth) * percent / 100)`
(src/main.go line 192). -/
def progressLengthOf (c : Config) (t1 t2 : ℤ) : ℤ :=
  goTrunc ((progressWidthOf c t1 t2 : ℚ) * percent c / 100)

/-- The glyph at position `i` of the bar (src/main.go lines 196-204):
fill `=` below the filled length `f`, head `>` exactly at `f` when `f` is
still short of the width `w`, space otherwise. -/
def barChar (w f i : ℤ) : Char :=
  if i < f then '=' else if i = f ∧ f < w then '>' else ' '

/-- The bar built by the loop at src/main.go lines 195-204: one glyph per
position `0 ≤ i < w` (no positions when `w < 0`). -/
def buildBar (w f : ℤ) : String :=
  String.mk ((List.range w.toNat).map fun i : ℕ => barChar w f (i : ℤ))

/-- The full line printed at src/main.go lines 207-210:
`"\r[" + bar + "]" + output`. -/
def renderLine (c : Config) (t1 t2 : ℤ) : String :=
  "\r[" ++ buildBar (progressWidthOf c t1 t2) (progressLengthOf c t1 t2) ++ "]" ++
    renderOutput c t1 t2

/-- `ShowProgressBar` (src/main.go lines 116-216) as a pure function of the
state and the two clock reads `t1` (line 124) and `t2` (line 162): returns
the updated state (`last`/`lastTime` refreshed only when `showSpeed`, lines
175-176) and the string written to stdout (the line, plus the `Println`
newline once `current >= total`, lines 213-215). -/
def ShowProgressBar (c : Config) (t1 t2 : ℤ) : Config × String :=
  ({ c with
      last := if c.showSpeed then c.current else c.last
      lastTime := if c.showSpeed then t2 else c.lastTime },
    renderLine c t1 t2 ++ (if c.current ≥ c.total then "\n" else ""))

/-- `Update` (src/main.go lines 102-107): conditional state change, then an
unconditional render. -/
def Update (c : Config) (v t1 t2 : ℤ) : Config × String :=
  ShowProgressBar (updateCurrent c v) t1 t2

/-- `Increment` (src/main.go lines 109-114): conditional `+1`, then an
unconditional render. -/
def Increment (c : Config) (t1 t2 : ℤ) : Config × String :=
  ShowProgressBar (incrementCurrent c) t1 t2

/-- A string free of line breaks (used to state that a render stays on its
line). -/
def noNL (s : String) : Prop := ∀ c ∈ s.data, c ≠ '\n'

instance noNL.decidable (s : String) : Decidable (noNL s) :=
  List.decidableBAll (· ≠ '\n') s.data

/-! ### Helper lemmas about the string-level model -/

theorem ratFloor_eq (q : ℚ) : ratFloor q = ⌊q⌋ := Rat.floor_def.symm

theorem goTrunc_of_nonneg {q : ℚ} (h : 0 ≤ q) : goTrunc q = ⌊q⌋ := by
  have hn : 0 ≤ q.num := Rat.num_nonneg.mpr h
  have hd : (0 : ℤ) ≤ (q.den : ℤ) := Int.ofNat_nonneg q.den
  unfold goTrunc
  rw [Int.tdiv_eq_ediv hn hd]
  exact Rat.floor_def.symm

theorem utf8ByteSize_go_append (l m : List Char) :
    String.utf8ByteSize.go (l ++ m) =
      String.utf8ByteSize.go l + String.utf8ByteSize.go m := by
  induction l with
  | nil => simp [String.utf8ByteSize.go]
  | cons c cs ih =>
    simp [String.utf8ByteSize.go, ih]
    omega

theorem utf8ByteSize_append (s t : String) :
    (s ++ t).utf8ByteSize = s.utf8ByteSize + t.utf8ByteSize := by
  cases s with
  | mk l =>
    cases t with
    | mk m => simp [String.utf8ByteSize, String.append, utf8ByteSize_go_append l m]

theorem utf8ByteSize_of_ascii {s : String} (h : ∀ c ∈ s.data, c.utf8Size = 1) :
    s.utf8ByteSize = s.length := by
  cases s with
  | mk l =>
    simp only [String.utf8ByteSize, String.length]
    induction l with
    | nil => rfl
    | cons c cs ih =>
      have hc : c.utf8Size = 1 := h c (by simp)
      have ihs := ih (fun d hd => h d (by simp [hd]))
      simp [String.utf8ByteSize.go, hc] at *
      omega

theorem data_append (s t : String) : (s ++ t).data = s.data ++ t.data :=
  String.data_append s t

theorem noNL_append {s t : String} (hs : noNL s) (ht : noNL t) : noNL (s ++ t) := by
  intro c hc
  rw [data_append, List.mem_append] at hc
  rcases hc with h | h
  · exact hs c h
  · exact ht c h

theorem noNL_mk {l : List Char} (h : ∀ c ∈ l, c ≠ '\n') : noNL (String.mk l) := h

theorem length_mk (l : List Char) : (String.mk l).length = l.length := rfl

theorem padLeft_length (w : ℕ) (s : String) :
    (padLeft w s).length = max w s.length := by
  simp only [padLeft, String.length_append, length_mk, List.length_replicate]
  omega

theorem padZeroLeft_length (w : ℕ) (s : String) :
    (padZeroLeft w s).length = max w s.length := by
  simp only [padZeroLeft, String.length_append, length_mk, List.length_replicate]
  omega

theorem decDigits_eq_digits (fuel n : ℕ) (h : n ≤ fuel) :
    decDigits fuel n = Nat.digits 10 n := by
  induction fuel generalizing n with
  | zero =>
    interval_cases n
    simp [decDigits]
  | succ fuel ih =>
    by_cases hn : n = 0
    · simp [decDigits, hn]
    · rw [decDigits, if_neg hn, ih (n / 10) (by omega),
        Nat.digits_def' (by norm_num : 1 < 10) (Nat.pos_of_ne_zero hn)]

theorem natRepr_length (n : ℕ) :
    (natRepr n).length = (if n = 0 then 1 else Nat.log 10 n + 1) := by
  by_cases hn : n = 0
  · simp only [natRepr, if_pos hn, if_pos hn]
    decide
  · rw [natRepr, if_neg hn]
    simp only [length_mk, List.length_map, List.length_reverse,
      decDigits_eq_digits n n le_rfl]
    rw [Nat.digits_len 10 n (by norm_num) hn, if_neg hn]

theorem natRepr_length_mono {m n : ℕ} (h : m ≤ n) :
    (natRepr m).length ≤ (natRepr n).length := by
  rw [natRepr_length, natRepr_length]
  by_cases hm : m = 0
  · by_cases hn : n = 0 <;> simp [hm, hn]
  · have hn : n ≠ 0 := by omega
    simp only [if_neg hm, if_neg hn]
    exact Nat.succ_le_succ (Nat.log_mono_right h)

theorem natRepr_pos (n : ℕ) : 1 ≤ (natRepr n).length := by
  rw [natRepr_length]
  by_cases hn : n = 0 <;> simp [hn]

theorem mem_natRepr {n : ℕ} {c : Char} (hc : c ∈ (natRepr n).data) :
    ∃ d, d < 10 ∧ c = digitChar d := by
  by_cases hn : n = 0
  · simp [natRepr, hn] at hc
    exact ⟨0, by omega, by simpa [digitChar] using hc⟩
  · rw [natRepr, if_neg hn] at hc
    have hc' : c ∈ ((decDigits n n).reverse.map digitChar) := hc
    rw [List.mem_map] at hc'
    obtain ⟨d, hd, rfl⟩ := hc'
    rw [List.mem_reverse, decDigits_eq_digits n n le_rfl] at hd
    exact ⟨d, Nat.digits_lt_base (by norm_num) hd, rfl⟩

theorem digitChar_utf8Size {d : ℕ} (hd : d < 10) : (digitChar d).utf8Size = 1 := by
  interval_cases d <;> decide

theorem digitChar_ne_nl {d : ℕ} (hd : d < 10) : digitChar d ≠ '\n' := by
  interval_cases d <;> decide

theorem natRepr_ascii (n : ℕ) : ∀ c ∈ (natRepr n).data, c.utf8Size = 1 := by
  intro c hc
  obtain ⟨d, hd, rfl⟩ := mem_natRepr hc
  exact digitChar_utf8Size hd

theorem noNL_natRepr (n : ℕ) : noNL (natRepr n) := by
  intro c hc
  obtain ⟨d, hd, rfl⟩ := mem_natRepr hc
  exact digitChar_ne_nl hd

theorem intRepr_ascii (i : ℤ) : ∀ c ∈ (intRepr i).data, c.utf8Size = 1 := by
  intro c hc
  unfold intRepr at hc
  by_cases hi : i < 0
  · rw [if_pos hi, data_append] at hc
    rcases List.mem_append.mp hc with h | h
    · simp at h
      subst h
      decide
    · exact natRepr_ascii _ c h
  · rw [if_neg hi] at hc
    exact natRepr_ascii _ c hc

theorem noNL_intRepr (i : ℤ) : noNL (intRepr i) := by
  intro c hc
  unfold intRepr at hc
  by_cases hi : i < 0
  · rw [if_pos hi, data_append] at hc
    rcases List.mem_append.mp hc with h | h
    · simp at h
      subst h
      decide
    · exact noNL_natRepr _ c h
  · rw [if_neg hi] at hc
    exact noNL_natRepr _ c hc

theorem utf8ByteSize_intRepr (i : ℤ) : (intRepr i).utf8ByteSize = (intRepr i).length :=
  utf8ByteSize_of_ascii (intRepr_ascii i)

theorem updateCurrent_total (c : Config) (v : ℤ) : (updateCurrent c v).total = c.total := by
  unfold updateCurrent
  split <;> rfl

theorem updateCurrent_mono (c : Config) (v : ℤ) :
    c.current ≤ (updateCurrent c v).current := by
  unfold updateCurrent
  split
  · simp_all
    omega
  · simp

theorem updateCurrent_le_total (c : Config) (v : ℤ) (h : c.current ≤ c.total) :
    (updateCurrent c v).current ≤ (updateCurrent c v).total := by
  unfold updateCurrent
  split <;> simp_all

theorem foldl_updateCurrent_bounds (vs : List ℤ) (c : Config) (h : c.current ≤ c.total) :
    c.current ≤ (vs.foldl updateCurrent c).current ∧
      (vs.foldl updateCurrent c).current ≤ c.total := by
  induction vs generalizing c with
  | nil => exact ⟨le_rfl, h⟩
  | cons v vs ih =>
    have h1 := updateCurrent_mono c v
    have h2 := updateCurrent_le_total c v h
    obtain ⟨ih1, ih2⟩ := ih (updateCurrent c v) h2
    rw [updateCurrent_total] at ih2
    exact ⟨le_trans h1 ih1, ih2⟩

/-! ### Claim theorems -/

/-- C1: `update(v)` sets `current` to `v` exactly when `v > current` and
`v ≤ total`; any other value is silently ignored (the state is unchanged and
the function is total, so no error is raised).  Consequently, along any
sequence of `update` calls from a state with `current ≤ total`, `current` is
non-decreasing and never exceeds `total`. -/
theorem update_monotone_clamped (c : Config) (v : ℤ) (vs : List ℤ)
    (h : c.current ≤ c.total) :
    (v > c.current ∧ v ≤ c.total → (updateCurrent c v).current = v) ∧
    (¬(v > c.current ∧ v ≤ c.total) → updateCurrent c v = c) ∧
    c.current ≤ (vs.foldl updateCurrent c).current ∧
    (vs.foldl updateCurrent c).current ≤ c.total := by
  refine ⟨?_, ?_, (foldl_updateCurrent_bounds vs c h).1, (foldl_updateCurrent_bounds vs c h).2⟩
  · intro hv
    unfold updateCurrent
    rw [if_pos hv]
  · intro hv
    unfold updateCurrent
    rw [if_neg hv]

theorem update_monotone_clamped_witness :
    (ProgressBar 100 80 0).current ≤ (ProgressBar 100 80 0).total ∧
    ((5 > (ProgressBar 100 80 0).current ∧ 5 ≤ (ProgressBar 100 80 0).total →
        (updateCurrent (ProgressBar 100 80 0) 5).current = 5) ∧
      (¬(5 > (ProgressBar 100 80 0).current ∧ 5 ≤ (ProgressBar 100 80 0).total) →
        updateCurrent (ProgressBar 100 80 0) 5 = ProgressBar 100 80 0) ∧
      (ProgressBar 100 80 0).current ≤
        (([5, 3, 200, 50] : List ℤ).foldl updateCurrent (ProgressBar 100 80 0)).current ∧
      (([5, 3, 200, 50] : List ℤ).foldl updateCurrent (ProgressBar 100 80 0)).current ≤
        (ProgressBar 100 80 0).total) :=
  ⟨by decide, update_monotone_clamped (ProgressBar 100 80 0) 5 [5, 3, 200, 50] (by decide)⟩

/-- C2: for a state with `0 ≤ current ≤ total`, the percent computed by the
render path is in `[0, 100]`, equals `100 * current / total` when
`total > 0`, and is `0` when `total = 0` (the `total > 0` guard means no
division by zero is ever performed). -/
theorem percent_bounds (c : Config) (h0 : 0 ≤ c.current) (h1 : c.current ≤ c.total) :
    0 ≤ percent c ∧ percent c ≤ 100 ∧
    (c.total > 0 → percent c = 100 * (c.current : ℚ) / (c.total : ℚ)) ∧
    (c.total = 0 → percent c = 0) := by
  unfold percent
  by_cases ht : c.total > 0
  · rw [if_pos ht]
    have htQ : (0 : ℚ) < (c.total : ℚ) := by exact_mod_cast ht
    have h0Q : (0 : ℚ) ≤ (c.current : ℚ) := by exact_mod_cast h0
    have h1Q : (c.current : ℚ) ≤ (c.total : ℚ) := by exact_mod_cast h1
    refine ⟨by positivity, ?_, fun _ => by ring, fun h => by omega⟩
    have hdiv : (c.current : ℚ) / (c.total : ℚ) ≤ 1 := by
      rw [div_le_one htQ]
      exact h1Q
    calc (c.current : ℚ) / (c.total : ℚ) * 100 ≤ 1 * 100 := by
          exact mul_le_mul_of_nonneg_right hdiv (by norm_num)
      _ = 100 := by norm_num
  · rw [if_neg ht]
    exact ⟨le_rfl, by norm_num, fun h => absurd h ht, fun _ => rfl⟩

theorem percent_bounds_witness :
    (0 ≤ (ProgressBar 100 80 0).current ∧ (ProgressBar 100 80 0).current ≤ (ProgressBar 100 80 0).total) ∧
    (0 ≤ percent (ProgressBar 100 80 0) ∧ percent (ProgressBar 100 80 0) ≤ 100 ∧
      ((ProgressBar 100 80 0).total > 0 →
        percent (ProgressBar 100 80 0) =
          100 * ((ProgressBar 100 80 0).current : ℚ) / ((ProgressBar 100 80 0).total : ℚ)) ∧
      ((ProgressBar 100 80 0).total = 0 → percent (ProgressBar 100 80 0) = 0)) :=
  ⟨⟨by decide, by decide⟩, percent_bounds (ProgressBar 100 80 0) (by decide) (by decide)⟩

/-- C8: a render refreshes `last`/`lastTime` to the just-used `current`/`now`
exactly when speed display is enabled, and leaves every other field of the
tracker (current, total, startTime, unit, totalStr, the five display flags,
width) unchanged. -/
theorem render_frame_effect (c : Config) (t1 t2 : ℤ) :
    ((ShowProgressBar c t1 t2).1).last = (if c.showSpeed then c.current else c.last) ∧
    ((ShowProgressBar c t1 t2).1).lastTime = (if c.showSpeed then t2 else c.lastTime) ∧
    ((ShowProgressBar c t1 t2).1).current = c.current ∧
    ((ShowProgressBar c t1 t2).1).total = c.total ∧
    ((ShowProgressBar c t1 t2).1).startTime = c.startTime ∧
    ((ShowProgressBar c t1 t2).1).unit = c.unit ∧
    ((ShowProgressBar c t1 t2).1).totalStr = c.totalStr ∧
    ((ShowProgressBar c t1 t2).1).showProgress = c.showProgress ∧
    ((ShowProgressBar c t1 t2).1).showPercent = c.showPercent ∧
    ((ShowProgressBar c t1 t2).1).showSpeed = c.showSpeed ∧
    ((ShowProgressBar c t1 t2).1).showUsedTime = c.showUsedTime ∧
    ((ShowProgressBar c t1 t2).1).showLastTime = c.showLastTime ∧
    ((ShowProgressBar c t1 t2).1).width = c.width := by
  refine ⟨rfl, rfl, rfl, rfl, rfl, rfl, rfl, rfl, rfl, rfl, rfl, rfl, rfl⟩

theorem incrementCurrent_eq_updateCurrent (c : Config) :
    incrementCurrent c = updateCurrent c (c.current + 1) := by
  unfold incrementCurrent updateCurrent
  rw [if_congr (show c.current < c.total ↔
    c.current + 1 > c.current ∧ c.current + 1 ≤ c.total by omega) rfl rfl]

/-- C9: `increment()` has exactly the same effect as `update(current+1)`:
the state change adds 1 to `current` iff `current < total` (else leaves it
unchanged), and both operations then perform the same unconditional render,
so the full result (new state and emitted output) coincides. -/
theorem increment_eq_update (c : Config) (t1 t2 : ℤ) :
    Increment c t1 t2 = Update c (c.current + 1) t1 t2 ∧
    (incrementCurrent c).current =
      (if c.current < c.total then c.current + 1 else c.current) := by
  constructor
  · unfold Increment Update
    rw [incrementCurrent_eq_updateCurrent]
  · unfold incrementCurrent
    split <;> rfl

theorem noNL_replicate {n : ℕ} {ch : Char} (h : ch ≠ '\n') :
    noNL (String.mk (List.replicate n ch)) := by
  intro c hc
  have hc' : c ∈ List.replicate n ch := hc
  rw [List.eq_of_mem_replicate hc']
  exact h

theorem noNL_padLeft (w : ℕ) {s : String} (hs : noNL s) : noNL (padLeft w s) :=
  noNL_append (noNL_replicate (by decide)) hs

theorem noNL_padZeroLeft (w : ℕ) {s : String} (hs : noNL s) : noNL (padZeroLeft w s) :=
  noNL_append (noNL_replicate (by decide)) hs

theorem noNL_fmtFrac (prec : ℕ) (q : ℚ) : noNL (fmtFrac prec q) := by
  rw [fmtFrac]
  refine noNL_append (noNL_append (noNL_append ?_ (noNL_natRepr _)) (by decide))
    (noNL_padZeroLeft _ (noNL_natRepr _))
  split
  · decide
  · decide

theorem noNL_fmtF (w prec : ℕ) (q : ℚ) : noNL (fmtF w prec q) :=
  noNL_padLeft _ (noNL_fmtFrac _ _)

theorem noNL_formatTime (ms : ℤ) : noNL (formatTime ms) := by
  rw [formatTime]
  exact noNL_append (noNL_append (noNL_append (noNL_append
    (noNL_padZeroLeft _ (noNL_intRepr _)) (by decide))
    (noNL_padZeroLeft _ (noNL_intRepr _))) (by decide))
    (noNL_padZeroLeft _ (noNL_intRepr _))

theorem suffixes_getD_ne_nl (i : ℕ) : suffixes.getD i ' ' ≠ '\n' := by
  have hlen : suffixes.length = 6 := rfl
  by_cases hi : i < suffixes.length
  · have hmem : suffixes.getD i ' ' ∈ suffixes := by
      rw [List.getD_eq_getElem?_getD, List.getElem?_eq_getElem hi]
      exact List.getElem_mem hi
    have hall : ∀ c ∈ suffixes, c ≠ '\n' := by decide
    exact hall _ hmem
  · rw [List.getD_eq_getElem?_getD, List.getElem?_eq_none (by omega)]
    decide

theorem noNL_formatBytes (b : ℤ) : noNL (formatBytes b) := by
  rw [formatBytes]
  split
  · exact noNL_append (noNL_padLeft _ (noNL_intRepr _)) (by decide)
  · refine noNL_append (noNL_append (noNL_append (noNL_fmtF _ _ _) (by decide)) ?_) (by decide)
    intro c hc
    have hc' : c ∈ [suffixes.getD (bytesLoop b.toNat (b.toNat / 1024) 1024 0).2 ' '] := hc
    rw [List.mem_singleton] at hc'
    rw [hc']
    exact suffixes_getD_ne_nl _

theorem noNL_currentStrOf (c : Config) : noNL (currentStrOf c) := by
  rw [currentStrOf]
  split
  · exact noNL_formatBytes _
  · exact noNL_padLeft _ (noNL_intRepr _)

theorem noNL_percentPart (c : Config) : noNL (percentPart c) := by
  rw [percentPart]
  split
  · exact noNL_append (noNL_append (by decide) (noNL_fmtF _ _ _)) (by decide)
  · decide

theorem noNL_progressPart (c : Config) (hts : noNL c.totalStr) : noNL (progressPart c) := by
  rw [progressPart]
  split
  · split
    · exact noNL_append (noNL_append (noNL_append (noNL_append (by decide)
        (noNL_currentStrOf c)) (by decide)) hts) (by decide)
    · exact noNL_append (noNL_append (noNL_append (by decide)
        (noNL_currentStrOf c)) (by decide)) hts
  · decide

theorem noNL_speedPart (c : Config) (t2 : ℤ) : noNL (speedPart c t2) := by
  rw [speedPart]
  split
  · split
    · split
      · split
        · exact noNL_append (noNL_append (by decide) (noNL_formatBytes _)) (by decide)
        · exact noNL_append (noNL_append (by decide) (noNL_fmtF _ _ _)) (by decide)
      · decide
    · decide
  · decide

theorem noNL_timePart (c : Config) (t1 : ℤ) : noNL (timePart c t1) := by
  rw [timePart]
  split
  · exact noNL_append (noNL_append (noNL_append (noNL_append (by decide)
      (noNL_formatTime _)) (by decide)) (noNL_formatTime _)) (by decide)
  · refine noNL_append ?_ ?_
    · split
      · exact noNL_append (noNL_append (by decide) (noNL_formatTime _)) (by decide)
      · decide
    · split
      · exact noNL_append (noNL_append (by decide) (noNL_formatTime _)) (by decide)
      · decide

theorem noNL_renderOutput (c : Config) (t1 t2 : ℤ) (hts : noNL c.totalStr) :
    noNL (renderOutput c t1 t2) :=
  noNL_append (noNL_append (noNL_append (noNL_percentPart c)
    (noNL_progressPart c hts)) (noNL_speedPart c t2)) (noNL_timePart c t1)

theorem noNL_buildBar (w f : ℤ) : noNL (buildBar w f) := by
  intro c hc
  have hc' : c ∈ (List.range w.toNat).map fun i : ℕ => barChar w f (i : ℤ) := hc
  rw [List.mem_map] at hc'
  obtain ⟨i, _, rfl⟩ := hc'
  rw [barChar]
  split
  · decide
  · split <;> decide

theorem noNL_renderLine (c : Config) (t1 t2 : ℤ) (hts : noNL c.totalStr) :
    noNL (renderLine c t1 t2) :=
  noNL_append (noNL_append (noNL_append (by decide) (noNL_buildBar _ _))
    (by decide)) (noNL_renderOutput c t1 t2 hts)

theorem renderLine_head (c : Config) (t1 t2 : ℤ) :
    ∃ s, renderLine c t1 t2 = "\r[" ++ s :=
  ⟨_, by rw [renderLine, String.append_assoc, String.append_assoc]⟩

/-- C4: for a state satisfying the data-model invariant `0 ≤ current ≤ total`
(with a line-break-free cached `totalStr`, as every reachable cache is), a
render's emitted string ends with a trailing line break iff
`current = total`; otherwise the emission contains no newline at all; and
every emission begins with a carriage return followed by `[`. -/
theorem final_newline_iff (c : Config) (t1 t2 : ℤ) (_h0 : 0 ≤ c.current)
    (h1 : c.current ≤ c.total) (hts : noNL c.totalStr) :
    ((ShowProgressBar c t1 t2).2 = renderLine c t1 t2 ++ "\n" ↔ c.current = c.total) ∧
    (c.current ≠ c.total → noNL ((ShowProgressBar c t1 t2).2)) ∧
    (∃ s, (ShowProgressBar c t1 t2).2 = "\r[" ++ s) := by
  have hsnd : (ShowProgressBar c t1 t2).2 =
      renderLine c t1 t2 ++ (if c.current ≥ c.total then "\n" else "") := rfl
  obtain ⟨sr, hsr⟩ := renderLine_head c t1 t2
  by_cases hdone : c.current = c.total
  · have hge : c.current ≥ c.total := le_of_eq hdone.symm
    rw [hsnd, if_pos hge]
    refine ⟨⟨fun _ => hdone, fun _ => rfl⟩, fun hne => absurd hdone hne, ?_⟩
    exact ⟨sr ++ "\n", by rw [hsr, String.append_assoc]⟩
  · have hge : ¬(c.current ≥ c.total) := fun hge => hdone (le_antisymm h1 hge)
    rw [hsnd, if_neg hge, String.append_empty]
    refine ⟨⟨fun heq => ?_, fun h => absurd h hdone⟩,
      fun _ => noNL_renderLine c t1 t2 hts, ⟨sr, hsr⟩⟩
    have hlen := congrArg String.length heq
    rw [String.length_append] at hlen
    have : ("\n" : String).length = 1 := rfl
    omega

theorem final_newline_iff_witness :
    (0 ≤ (ProgressBar 100 80 0).current ∧
      (ProgressBar 100 80 0).current ≤ (ProgressBar 100 80 0).total ∧
      noNL (ProgressBar 100 80 0).totalStr) ∧
    (((ShowProgressBar (ProgressBar 100 80 0) 0 0).2 =
        renderLine (ProgressBar 100 80 0) 0 0 ++ "\n" ↔
        (ProgressBar 100 80 0).current = (ProgressBar 100 80 0).total) ∧
      ((ProgressBar 100 80 0).current ≠ (ProgressBar 100 80 0).total →
        noNL ((ShowProgressBar (ProgressBar 100 80 0) 0 0).2)) ∧
      (∃ s, (ShowProgressBar (ProgressBar 100 80 0) 0 0).2 = "\r[" ++ s)) :=
  ⟨⟨by decide, by decide, by decide⟩,
    final_newline_iff (ProgressBar 100 80 0) 0 0 (by decide) (by decide) (by decide)⟩

/-- C6: in a bar of available width `w ≥ 0` with percent `p ∈ [0,100]`, the
filled length `f` computed by the code (truncation, which agrees with floor
here) satisfies `0 ≤ f ≤ w`, the bar has exactly `w` glyphs, and position
`i` renders `=` below `f`, the head `>` exactly at `f` iff `f < w`, and a
space elsewhere. -/
theorem bar_glyphs (w f : ℤ) (p : ℚ) (hw : 0 ≤ w) (hp0 : 0 ≤ p) (hp1 : p ≤ 100)
    (hf : f = goTrunc ((w : ℚ) * p / 100)) :
    f = ⌊(w : ℚ) * p / 100⌋ ∧ 0 ≤ f ∧ f ≤ w ∧
    (buildBar w f).length = w.toNat ∧
    (∀ i : ℕ, i < w.toNat →
      (buildBar w f).data.getD i ' ' =
        (if (i : ℤ) < f then '='
         else if (i : ℤ) = f ∧ f < w then '>' else ' ')) := by
  have hwQ : (0 : ℚ) ≤ (w : ℚ) := by exact_mod_cast hw
  have hq : (0 : ℚ) ≤ (w : ℚ) * p / 100 := by positivity
  have hfl : f = ⌊(w : ℚ) * p / 100⌋ := by rw [hf, goTrunc_of_nonneg hq]
  have hf0 : 0 ≤ f := by
    rw [hfl]
    exact Int.floor_nonneg.mpr hq
  have hfw : f ≤ w := by
    rw [hfl]
    have hle : (w : ℚ) * p / 100 ≤ (w : ℚ) := by
      rw [div_le_iff₀ (by norm_num : (0:ℚ) < 100)]
      exact mul_le_mul_of_nonneg_left hp1 hwQ
    calc ⌊(w : ℚ) * p / 100⌋ ≤ ⌊((w : ℤ) : ℚ)⌋ := Int.floor_le_floor hle
      _ = w := Int.floor_intCast w
  have hlength : (buildBar w f).length = w.toNat := by
    rw [buildBar, length_mk, List.length_map, List.length_range]
  refine ⟨hfl, hf0, hfw, hlength, ?_⟩
  intro i hi
  have hlen : i < ((List.range w.toNat).map fun j : ℕ => barChar w f (j : ℤ)).length := by
    rw [List.length_map, List.length_range]
    exact hi
  rw [buildBar]
  show (((List.range w.toNat).map fun j : ℕ => barChar w f (j : ℤ)).getD i ' ') = _
  rw [List.getD_eq_getElem?_getD, List.getElem?_eq_getElem hlen]
  simp only [List.getElem_map, List.getElem_range, Option.getD_some]
  rfl

theorem bar_glyphs_witness :
    ((0 : ℤ) ≤ 10 ∧ (0 : ℚ) ≤ 25 ∧ (25 : ℚ) ≤ 100) ∧
    (goTrunc (((10 : ℤ) : ℚ) * 25 / 100) = ⌊((10 : ℤ) : ℚ) * 25 / 100⌋ ∧
      0 ≤ goTrunc (((10 : ℤ) : ℚ) * 25 / 100) ∧
      goTrunc (((10 : ℤ) : ℚ) * 25 / 100) ≤ 10 ∧
      (buildBar 10 (goTrunc (((10 : ℤ) : ℚ) * 25 / 100))).length = (10 : ℤ).toNat ∧
      (∀ i : ℕ, i < (10 : ℤ).toNat →
        (buildBar 10 (goTrunc (((10 : ℤ) : ℚ) * 25 / 100))).data.getD i ' ' =
          (if (i : ℤ) < goTrunc (((10 : ℤ) : ℚ) * 25 / 100) then '='
           else if (i : ℤ) = goTrunc (((10 : ℤ) : ℚ) * 25 / 100) ∧
               goTrunc (((10 : ℤ) : ℚ) * 25 / 100) < 10 then '>' else ' '))) :=
  ⟨⟨by norm_num, by norm_num, by norm_num⟩,
    bar_glyphs 10 (goTrunc (((10 : ℤ) : ℚ) * 25 / 100)) 25 (by norm_num) (by norm_num)
      (by norm_num) rfl⟩

theorem bytesLoop_exp_le (fuel : ℕ) :
    ∀ k n d e, n ≤ fuel → n < 1024 ^ (k + 1) → (bytesLoop fuel n d e).2 ≤ e + k := by
  induction fuel with
  | zero =>
    intro k n d e hn _
    simp [bytesLoop]
  | succ fuel ih =>
    intro k n d e hn hk
    rw [bytesLoop]
    by_cases h : n < 1024
    · rw [if_pos h]
      omega
    · rw [if_neg h]
      obtain ⟨k', rfl⟩ : ∃ k', k = k' + 1 := by
        rcases k with _ | k'
        · exfalso
          rw [pow_one] at hk
          omega
        · exact ⟨k', rfl⟩
      have hdivfuel : n / 1024 ≤ fuel := by
        have : n / 1024 < n := Nat.div_lt_self (by omega) (by norm_num)
        omega
      have hdivpow : n / 1024 < 1024 ^ (k' + 1) := by
        rw [Nat.div_lt_iff_lt_mul (by norm_num : 0 < 1024)]
        calc n < 1024 ^ (k' + 1 + 1) := hk
          _ = 1024 ^ (k' + 1) * 1024 := by ring
      have := ih k' (n / 1024) (d * 1024) (e + 1) hdivfuel hdivpow
      omega

/-- C10: the magnitude formatter is a total function.  Every input below
1024 (zero and negatives included) takes the plain `%3d B` branch, and for
every `int64` input `≥ 1024` the loop's exponent stays `≤ 5`, so the index
into the suffix sequence `"KMGTPE"` is always in bounds. -/
theorem formatBytes_total_safe (b : ℤ) (hlo : -(2 ^ 63) ≤ b) (hhi : b < 2 ^ 63) :
    (b < 1024 → formatBytes b = padLeft 3 (intRepr b) ++ " B") ∧
    (1024 ≤ b → (bytesLoop b.toNat (b.toNat / 1024) 1024 0).2 < suffixes.length) := by
  constructor
  · intro h
    rw [formatBytes, if_pos h]
  · intro h
    have hb0 : (0 : ℤ) ≤ b := by omega
    have hbn : b.toNat < 2 ^ 63 := by
      have : (b.toNat : ℤ) = b := Int.toNat_of_nonneg hb0
      omega
    have hfuel : b.toNat / 1024 ≤ b.toNat := Nat.div_le_self _ _
    have hpow : b.toNat / 1024 < 1024 ^ (5 + 1) := by
      rw [Nat.div_lt_iff_lt_mul (by norm_num : 0 < 1024)]
      calc b.toNat < 2 ^ 63 := hbn
        _ ≤ 1024 ^ 6 * 1024 := by norm_num
    have := bytesLoop_exp_le b.toNat 5 (b.toNat / 1024) 1024 0 hfuel hpow
    have hlen : suffixes.length = 6 := by decide
    omega

theorem formatBytes_total_safe_witness :
    (-(2 ^ 63) ≤ (2 ^ 63 - 1 : ℤ) ∧ (2 ^ 63 - 1 : ℤ) < 2 ^ 63) ∧
    (((2 ^ 63 - 1 : ℤ) < 1024 →
        formatBytes (2 ^ 63 - 1) = padLeft 3 (intRepr (2 ^ 63 - 1)) ++ " B") ∧
      (1024 ≤ (2 ^ 63 - 1 : ℤ) →
        (bytesLoop (2 ^ 63 - 1 : ℤ).toNat ((2 ^ 63 - 1 : ℤ).toNat / 1024) 1024 0).2 <
          suffixes.length)) :=
  ⟨⟨by norm_num, by norm_num⟩, formatBytes_total_safe (2 ^ 63 - 1) (by norm_num) (by norm_num)⟩

/-- C7: with speed display enabled, the speed annotation is appended exactly
when a prior sample exists (`lastTime > 0`) and the elapsed interval is
positive; the rate is `(current - last) / ((now - lastTime)/1000)`, and
under the Bytes unit the displayed value is that rate scaled by 1024,
truncated to an integer, and magnitude-formatted as bytes per second. -/
theorem speed_annotation_rate (c : Config) (t2 : ℤ) (hs : c.showSpeed = true) :
    speedPart c t2 =
      (if c.lastTime > 0 ∧ t2 - c.lastTime > 0 then
        (if c.unit = Unit.UnitBytes then
          " (" ++ formatBytes (goTrunc (((c.current - c.last : ℤ) : ℚ) /
              (((t2 - c.lastTime : ℤ) : ℚ) / 1000) * 1024)) ++ "/s)"
         else
          " (" ++ fmtF 7 2 (((c.current - c.last : ℤ) : ℚ) /
              (((t2 - c.lastTime : ℤ) : ℚ) / 1000)) ++ " items/s)")
       else "") := by
  rw [speedPart, hs]
  by_cases h1 : c.lastTime > 0
  · by_cases h2 : t2 - c.lastTime > 0
    · rw [if_pos rfl, if_pos h1, if_pos h2, if_pos (And.intro h1 h2)]
    · rw [if_pos rfl, if_pos h1, if_neg h2, if_neg (fun hc => h2 hc.right)]
  · rw [if_pos rfl, if_neg h1, if_neg (fun hc => h1 hc.left)]

theorem ratFloor_intCast (m : ℤ) : ratFloor (m : ℚ) = m := by
  rw [ratFloor_eq, Int.floor_intCast]

theorem rndHE_intCast (m : ℤ) : rndHE (m : ℚ) = m := by
  rw [rndHE, ratFloor_intCast, if_neg (by norm_num), ratFloor_eq]
  refine Int.floor_eq_iff.mpr ⟨by norm_num, ?_⟩
  linarith

theorem fmtFrac_natCast (prec n : ℕ) :
    fmtFrac prec (n : ℚ) = natRepr n ++ "." ++ padZeroLeft prec (natRepr 0) := by
  have h0 : ¬((n : ℚ) < 0) := not_lt.mpr (by positivity)
  have hc : |((n : ℕ) : ℚ)| * 10 ^ prec = (((n : ℤ) * 10 ^ prec : ℤ) : ℚ) := by
    rw [abs_of_nonneg (by positivity : (0 : ℚ) ≤ ((n : ℕ) : ℚ))]
    push_cast
    ring
  rw [fmtFrac, if_neg h0, hc, rndHE_intCast,
    Int.mul_ediv_cancel _ (by positivity : (10 : ℤ) ^ prec ≠ 0),
    Int.mul_emod_left, Int.toNat_natCast, String.empty_append]
  rfl

theorem formatBytes_2048 : formatBytes 2048 = "   2.0 KB" := by
  rw [formatBytes, if_neg (by norm_num),
    show bytesLoop (2048 : ℤ).toNat ((2048 : ℤ).toNat / 1024) 1024 0 = (1024, 0) from rfl,
    show ((2048 : ℤ) : ℚ) / ((((1024, 0) : ℕ × ℕ).1 : ℕ) : ℚ) = ((2 : ℕ) : ℚ) by norm_num,
    fmtF, fmtFrac_natCast]
  decide

theorem formatBytes_1024 : formatBytes 1024 = "   1.0 KB" := by
  rw [formatBytes, if_neg (by norm_num),
    show bytesLoop (1024 : ℤ).toNat ((1024 : ℤ).toNat / 1024) 1024 0 = (1024, 0) from rfl,
    show ((1024 : ℤ) : ℚ) / ((((1024, 0) : ℕ × ℕ).1 : ℕ) : ℚ) = ((1 : ℕ) : ℚ) by norm_num,
    fmtF, fmtFrac_natCast]
  decide

theorem intRepr_of_nonneg {i : ℤ} (h : 0 ≤ i) : intRepr i = natRepr i.toNat :=
  if_neg (not_lt.mpr h)

theorem intRepr_length_mono {i j : ℤ} (h0 : 0 ≤ i) (h : i ≤ j) :
    (intRepr i).length ≤ (intRepr j).length := by
  rw [intRepr_of_nonneg h0, intRepr_of_nonneg (le_trans h0 h)]
  exact natRepr_length_mono (Int.toNat_le_toNat h)

/-- C5 counterexample: with the Bytes unit, `total = 2048` and the valid
`current = 0` (`0 ≤ current ≤ total`), the formatted current (`"  0 B"`,
width 5) and the cached formatted total (`"   2.0 KB"`, width 9) have
different widths, so the two sides of the fraction annotation do not align
in general under Bytes. -/
theorem fraction_width_counterexample :
    0 ≤ (SetUnit (ProgressBar 2048 80 0) Unit.UnitBytes).current ∧
    (SetUnit (ProgressBar 2048 80 0) Unit.UnitBytes).current ≤
      (SetUnit (ProgressBar 2048 80 0) Unit.UnitBytes).total ∧
    (currentStrOf (SetUnit (ProgressBar 2048 80 0) Unit.UnitBytes)).length ≠
      (SetUnit (ProgressBar 2048 80 0) Unit.UnitBytes).totalStr.length := by
  refine ⟨by decide, by decide, ?_⟩
  have ht : (SetUnit (ProgressBar 2048 80 0) Unit.UnitBytes).totalStr = formatBytes 2048 := rfl
  have hc : currentStrOf (SetUnit (ProgressBar 2048 80 0) Unit.UnitBytes) = formatBytes 0 := rfl
  rw [ht, hc, formatBytes_2048]
  decide

/-- C5 (amended): under the Raw unit, for any state with
`0 ≤ current ≤ total` and the cached `totalStr = intRepr total`, the
per-render formatted current is padded to exactly the width of the cached
formatted total.  Under the Bytes unit the widths agree only when the two
values format to equally wide strings — as in Scenario D, where
`formatBytes 1024` and `formatBytes 2048` are both 9 characters — but not
in general (see the counterexample). -/
theorem fraction_width_align (c : Config) (h0 : 0 ≤ c.current) (h1 : c.current ≤ c.total)
    (hu : c.unit = Unit.UnitRaw) (ht : c.totalStr = intRepr c.total) :
    (currentStrOf c).length = c.totalStr.length ∧
    (formatBytes 1024).length = (formatBytes 2048).length := by
  constructor
  · rw [currentStrOf, if_neg (by rw [hu]; exact fun h => Unit.noConfusion h), ht,
      utf8ByteSize_intRepr, padLeft_length]
    exact Nat.max_eq_left (intRepr_length_mono h0 h1)
  · rw [formatBytes_1024, formatBytes_2048]
    decide

theorem fraction_width_align_witness :
    (0 ≤ (ProgressBar 2048 80 0).current ∧
      (ProgressBar 2048 80 0).current ≤ (ProgressBar 2048 80 0).total ∧
      (ProgressBar 2048 80 0).unit = Unit.UnitRaw ∧
      (ProgressBar 2048 80 0).totalStr = intRepr (ProgressBar 2048 80 0).total) ∧
    ((currentStrOf (ProgressBar 2048 80 0)).length = (ProgressBar 2048 80 0).totalStr.length ∧
      (formatBytes 1024).length = (formatBytes 2048).length) :=
  ⟨⟨by decide, by decide, rfl, rfl⟩,
    fraction_width_align (ProgressBar 2048 80 0) (by decide) (by decide) rfl rfl⟩

theorem buildBar_length (w f : ℤ) : (buildBar w f).length = w.toNat := by
  rw [buildBar, length_mk, List.length_map, List.length_range]

theorem barChar_ascii (w f i : ℤ) : (barChar w f i).utf8Size = 1 := by
  unfold barChar
  split
  · decide
  · split <;> decide

theorem buildBar_utf8ByteSize (w f : ℤ) : (buildBar w f).utf8ByteSize = w.toNat := by
  rw [utf8ByteSize_of_ascii, buildBar_length]
  intro c hc
  have hc' : c ∈ (List.range w.toNat).map fun i : ℕ => barChar w f (i : ℤ) := hc
  rw [List.mem_map] at hc'
  obtain ⟨i, _, rfl⟩ := hc'
  exact barChar_ascii w f (i : ℤ)

/-- C3 (amended): the byte length of the rendered line, excluding the
leading carriage return, always equals `max width (len(annotation) + 2)`:
when the annotation plus the two brackets fit (`width ≥ len + 2`) the line
is exactly `width` bytes, and when `width - len(annotation) - 2` is
negative the bar degenerates to zero glyphs (never negative-length content,
no panic) but the line is `len(annotation) + 2` bytes, which can exceed
`width` by more than 1. -/
theorem render_line_width (c : Config) (t1 t2 : ℤ) :
    ((renderLine c t1 t2).utf8ByteSize : ℤ) - 1 =
      max c.width (((renderOutput c t1 t2).utf8ByteSize : ℤ) + 2) ∧
    (buildBar (progressWidthOf c t1 t2) (progressLengthOf c t1 t2)).length =
      (progressWidthOf c t1 t2).toNat := by
  refine ⟨?_, buildBar_length _ _⟩
  rw [renderLine, utf8ByteSize_append, utf8ByteSize_append, utf8ByteSize_append,
    buildBar_utf8ByteSize]
  rw [show ("\r[" : String).utf8ByteSize = 2 from rfl,
    show ("]" : String).utf8ByteSize = 1 from rfl]
  rw [progressWidthOf]
  push_cast
  omega

/-- C3 counterexample: with cached width 0 and the default options
(`showProgress` only) on a fresh zero-total bar, the rendered line is 6
bytes beyond the carriage return, exceeding `width + 1 = 1`; the claimed
"never exceeds width, allowing at most +1" fails for every state whose
annotation is wider than the terminal. -/
theorem render_line_width_counterexample :
    ((renderLine (ProgressBar 0 0 0) 0 0).utf8ByteSize : ℤ) - 1 >
      (ProgressBar 0 0 0).width + 1 := by
  decide

theorem speed_annotation_rate_witness :
    (ShowSpeed (ProgressBar 100 80 0) true).showSpeed = true ∧
    speedPart (ShowSpeed (ProgressBar 100 80 0) true) 5 =
      (if (ShowSpeed (ProgressBar 100 80 0) true).lastTime > 0 ∧
          5 - (ShowSpeed (ProgressBar 100 80 0) true).lastTime > 0 then
        (if (ShowSpeed (ProgressBar 100 80 0) true).unit = Unit.UnitBytes then
          " (" ++ formatBytes (goTrunc ((((ShowSpeed (ProgressBar 100 80 0) true).current -
              (ShowSpeed (ProgressBar 100 80 0) true).last : ℤ) : ℚ) /
              (((5 - (ShowSpeed (ProgressBar 100 80 0) true).lastTime : ℤ) : ℚ) / 1000) *
              1024)) ++ "/s)"
         else
          " (" ++ fmtF 7 2 ((((ShowSpeed (ProgressBar 100 80 0) true).current -
              (ShowSpeed (ProgressBar 100 80 0) true).last : ℤ) : ℚ) /
              (((5 - (ShowSpeed (ProgressBar 100 80 0) true).lastTime : ℤ) : ℚ) / 1000)) ++
            " items/s)")
       else "") :=
  ⟨rfl, speed_annotation_rate (ShowSpeed (ProgressBar 100 80 0) true) 5 rfl⟩

end ProgressBarGo
